import Mathlib

/-!
Verification development for the PokesweepApp page-to-record extraction
pipeline.  The JavaScript sources are embedded shallowly: a JS string is
modelled as a `List Char`, the regular-expression matchers are modelled as
explicit backtracking scanners with the same leftmost-match, greedy
semantics, and JS objects used as grade maps are modelled as association
lists with insert-or-update assignment.  Machine numbers produced by the
code are small naturals, modelled as `Nat`.
-/

set_option maxRecDepth 10000

namespace Pokesweep

/-- JS strings are modelled as lists of characters. -/
abbrev Str := List Char

/-- Model of the JS regex class `\s` restricted to the ASCII whitespace the
pages contain (space, tab, newline, carriage return). -/
def isSpaceChar (c : Char) : Bool :=
  c == ' ' || c == '\t' || c == '\n' || c == '\r'

/-- Model of the JS regex class `\d`. -/
def isDigitChar (c : Char) : Bool := c.isDigit

/-- Characters matched by the value class `[0-9,]`. -/
def isValChar (c : Char) : Bool := c.isDigit || c == ','

/-- Model of JS `toLowerCase` (ASCII). -/
def lowerStr (s : Str) : Str := s.map Char.toLower

/-- Model of JS `replace(/\s+/g, "")`: remove every whitespace character. -/
def stripWS (s : Str) : Str := s.filter (fun c => !isSpaceChar c)

/-- Drop the leading whitespace run (a greedy `\s*` step). -/
def dropSpaces (s : Str) : Str := s.dropWhile isSpaceChar

/-- Take the leading whitespace run (a greedy `\s*` step). -/
def takeSpaces (s : Str) : Str := s.takeWhile isSpaceChar

/-- Collapse every whitespace run to a single space, as in
`replace(/\s+/g, " ")`.  The fuel argument (instantiated with the string
length, enough for every step since each step consumes at least one
character) makes the recursion structural. -/
def collapseWSFuel : Nat → Str → Str
  | 0, _ => []
  | _, [] => []
  | fuel + 1, c :: cs =>
    if isSpaceChar c then ' ' :: collapseWSFuel fuel (dropSpaces cs)
    else c :: collapseWSFuel fuel cs

/-- Model of JS `trim()`. -/
def trimStr (s : Str) : Str :=
  ((dropSpaces s).reverse.dropWhile isSpaceChar).reverse

/-- Model of `$el.text().replace(/\s+/g, " ").trim()`, the per-block text
normalisation every variant applies before extraction. -/
def normalizeWS (s : Str) : Str := trimStr (collapseWSFuel s.length s)

/-- `cleanNum` from the sources: `if (!s) return null;
const m = String(s).replace(/[^\d]/g, ""); return m ? Number(m) : null;`.
The all-digit remainder is read in base 10. -/
def digitsVal (ds : Str) : Nat :=
  ds.foldl (fun n c => 10 * n + (c.toNat - 48)) 0

def cleanNum (s : Str) : Option Nat :=
  if s = [] then none
  else
    let ds := s.filter isDigitChar
    if ds = [] then none else some (digitsVal ds)

/-- Case-insensitive literal match (the `i` flag): consume the pattern at
the head of the text and return the rest, comparing lowercased characters. -/
def matchCI : Str → Str → Option Str
  | [], s => some s
  | _ :: _, [] => none
  | p :: ps, c :: cs => if c.toLower == p.toLower then matchCI ps cs else none

/-- After `PSA\s*` has been consumed, match `([0-9]{1,2})\s*([0-9,]+)` with
the JS greedy/backtracking order: a two-digit grade is preferred; if the
value class then finds nothing, the engine backtracks to a one-digit grade,
in which case the value starts at the second digit. -/
def matchGradeVal : Str → Option (Str × Str × Str)
  | [] => none
  | [_] => none
  | c1 :: c2 :: rest =>
    if isDigitChar c1 then
      if isDigitChar c2 then
        let afterSp := dropSpaces rest
        let v := afterSp.takeWhile isValChar
        if v = [] then
          let v2 := (c2 :: rest).takeWhile isValChar
          some ([c1], v2, (c2 :: rest).drop v2.length)
        else some ([c1, c2], v, afterSp.drop v.length)
      else
        let afterSp := dropSpaces (c2 :: rest)
        let v := afterSp.takeWhile isValChar
        if v = [] then none else some ([c1], v, afterSp.drop v.length)
    else none

/-- One anchored attempt of `/PSA\s*([0-9]{1,2})\s*([0-9,]+)/i`: returns
the grade digits, the raw value characters and the rest of the text after
the match. -/
def matchPSAAt (s : Str) : Option (Str × Str × Str) :=
  match matchCI ("PSA".data) s with
  | none => none
  | some afterPSA => matchGradeVal (dropSpaces afterPSA)

/-- Global scan of `rx.exec` with the `g` flag: emit every non-overlapping
match left to right, resuming after each match.  Fuel is the remaining
length, sufficient because every step consumes at least one character. -/
def findGradesFuel : Nat → Str → List (Str × Option Nat)
  | 0, _ => []
  | _, [] => []
  | fuel + 1, c :: cs =>
    match matchPSAAt (c :: cs) with
    | some (g, v, rest) => (g, cleanNum v) :: findGradesFuel fuel rest
    | none => findGradesFuel fuel cs

/-- `findGrades` (part_002): the ordered list of `{grade, value}` entries,
`value` being `cleanNum` of the captured `[0-9,]+` group. -/
def findGrades (s : Str) : List (Str × Option Nat) := findGradesFuel s.length s

/-- JS object assignment `m[k] = v` on a string-keyed object: update the
entry in place if the key exists, otherwise append it. -/
def setKey : List (Str × Nat) → Str → Nat → List (Str × Nat)
  | [], k, v => [(k, v)]
  | p :: m, k, v => if p.1 = k then (k, v) :: m else p :: setKey m k v

/-- JS object property read. -/
def getKey (m : List (Str × Nat)) (k : Str) : Option Nat :=
  (m.find? (fun p => decide (p.1 = k))).map (fun p => p.2)

/-- The template literal `` `PSA ${grade}` `` used as map key. -/
def gradeKey (g : Str) : Str := "PSA ".data ++ g

/-- Loop body of the mapping-only grade extractor:
`if (g.value != null) grades[`PSA ${g.grade}`] = g.value;`. -/
def gradeStep (m : List (Str × Nat)) (e : Str × Option Nat) : List (Str × Nat) :=
  match e.2 with
  | some v => setKey m (gradeKey e.1) v
  | none => m

/-- The mapping-only grade extractor (`extractGrades` in scrapeSet.js and
part_003, `extractGradesMap` in part_002): walk the occurrence list and
assign each parseable value into the object. -/
def extractGradesMap (text : Str) : List (Str × Nat) :=
  (findGrades text).foldl gradeStep []

/-- Specification-side description of the value the mapping retains for a
key: the value of the last occurrence of that grade whose value parses
numerically (later assignments into the JS object overwrite earlier ones). -/
def specLastParsedValue (entries : List (Str × Option Nat)) (k : Str) : Option Nat :=
  (entries.filterMap
    (fun e =>
      match e.2 with
      | some v => if gradeKey e.1 = k then some v else none
      | none => none)).getLast?

/-- `new Set(gradeList.map(g => g.grade)).size` from part_002. -/
def distinctGradeCount (text : Str) : Nat :=
  ((findGrades text).map (fun e => e.1)).dedup.length

/-- One anchored attempt of `/(\d{1,4}\s*\/\s*\d{1,4})/` that takes exactly
`n` leading digits for the first `\d{1,4}` quantifier. -/
def tryLen (n : Nat) (s : Str) : Option Str :=
  let a := s.take n
  if a.length = n ∧ a.all isDigitChar then
    let r1 := s.drop n
    let sp1 := takeSpaces r1
    match r1.drop sp1.length with
    | '/' :: r2 =>
      let sp2 := takeSpaces r2
      let r3 := r2.drop sp2.length
      let b := (r3.takeWhile isDigitChar).take 4
      if b = [] then none
      else some (a ++ sp1 ++ '/' :: (sp2 ++ b))
    | _ => none
  else none

/-- Anchored match of `/(\d{1,4}\s*\/\s*\d{1,4})/`: the greedy `\d{1,4}`
tries four digits first and backtracks down to one. -/
def fracMatchAt (s : Str) : Option Str :=
  match tryLen 4 s with
  | some m => some m
  | none =>
    match tryLen 3 s with
    | some m => some m
    | none =>
      match tryLen 2 s with
      | some m => some m
      | none => tryLen 1 s

/-- Leftmost match of the fraction pattern anywhere in the text. -/
def firstFractionMatch : Str → Option Str
  | [] => none
  | c :: cs =>
    match fracMatchAt (c :: cs) with
    | some m => some m
    | none => firstFractionMatch cs

/-- `extractCardNumberChunk` (scrapeSet.js, part_003) /
`extractCardNumber` (part_002): first fraction-shaped token with its
whitespace stripped, or null. -/
def extractCardNumberChunk (s : Str) : Option Str :=
  (firstFractionMatch s).map stripWS

def extractCardNumber : Str → Option Str := extractCardNumberChunk

/-- Anchored match of `Population\s*([0-9,]+)` (case-insensitive); returns
the captured value characters. -/
def popMatchAt (s : Str) : Option Str :=
  match matchCI ("Population".data) s with
  | none => none
  | some rest =>
    let v := (dropSpaces rest).takeWhile isValChar
    if v = [] then none else some v

/-- Anchored match of `Total\s*Population\s*([0-9,]+)` (case-insensitive). -/
def totalPopMatchAt (s : Str) : Option Str :=
  match matchCI ("Total".data) s with
  | none => none
  | some rest => popMatchAt (dropSpaces rest)

namespace ScrapeSet

/-- `extractTotal` from src/api/scrapeSet.js:
`/Total\s*Population\s*([0-9,]+)/i.exec(text)` — the `Total` qualifier is
required.  Leftmost match wins. -/
def extractTotalAux : Str → Option Str
  | [] => none
  | c :: cs =>
    match totalPopMatchAt (c :: cs) with
    | some v => some v
    | none => extractTotalAux cs

def extractTotal (s : Str) : Option Nat :=
  match extractTotalAux s with
  | some v => cleanNum v
  | none => none

end ScrapeSet

namespace Headless

/-- `extractTotal` from part_002/part_003:
`/(Total\s*)?Population\s*([0-9,]+)/i.exec(text)` — the optional group is
tried first at each position, as the JS engine does. -/
def extractTotalAux : Str → Option Str
  | [] => none
  | c :: cs =>
    match totalPopMatchAt (c :: cs) with
    | some v => some v
    | none =>
      match popMatchAt (c :: cs) with
      | some v => some v
      | none => extractTotalAux cs

def extractTotal (s : Str) : Option Nat :=
  match extractTotalAux s with
  | some v => cleanNum v
  | none => none

end Headless

/-- Pattern test `/(PSA\s*\d)/i` anchored at one position. -/
def psaHintAt (s : Str) : Bool :=
  match matchCI ("PSA".data) s with
  | none => false
  | some rest =>
    match dropSpaces rest with
    | c :: _ => isDigitChar c
    | [] => false

def hasPSAHint : Str → Bool
  | [] => false
  | c :: cs => psaHintAt (c :: cs) || hasPSAHint cs

/-- part_003's block pre-check
`/(PSA\s*\d)|(\d{1,4}\s*\/\s*\d{1,4})/i.test(text)`. -/
def psaOrNumberTest (s : Str) : Bool :=
  hasPSAHint s || (firstFractionMatch s).isSome

/-- Bool substring check, modelling JS `String.includes`. -/
def startsWithStr : Str → Str → Bool
  | [], _ => true
  | _ :: _, [] => false
  | p :: ps, c :: cs => (p == c) && startsWithStr ps cs

def hasSub (pat : Str) : Str → Bool
  | [] => startsWithStr pat []
  | c :: cs => startsWithStr pat (c :: cs) || hasSub pat cs

/-- `CardRecord`: the output unit every variant returns in `cards`.  Its
five fields are exactly the ones a returned record carries. -/
structure Row where
  name : Str
  details : Str
  cardNumber : Option Str
  totalPop : Option Nat
  grades : List (Str × Nat)
deriving DecidableEq

/-- Internal record of the headless variants before the final response:
a `CardRecord` plus the `_len` block-length metric used for ranking, which
`cards: out.map(({_len, ...rest}) => rest)` strips from the output. -/
structure RowL extends Row where
  blockLen : Nat
deriving DecidableEq

/-- A candidate block handed to the record assembler: its full text plus
the name/details that the DOM-structural `extractNameAndDetails` found in
it (that function only queries the DOM node, so its results are inputs of
the text pipeline). -/
structure BlockIn where
  text : Str
  sName : Str
  sDetails : Str
deriving DecidableEq

/-- `limit ? Math.max(1, Math.min(200, Number(limit))) : null` — the clamp
shared by every variant. -/
def clampLimit (v : Int) : Int := max 1 (min 200 v)

/-- `out = lim ? filtered.slice(0, lim) : filtered` (the clamped limit is
at least 1, hence truthy). -/
def applyLimit {α : Type} (limit : Option Int) (l : List α) : List α :=
  match limit with
  | none => l
  | some v => l.take (clampLimit v).toNat

namespace Strict

/-!  The tight-heuristics broad-sweep variant (part_002). -/

/-- The kept-block loop body of part_002: discard when the normalised text
is empty, has no card-number fraction, has fewer than 3 distinct PSA grade
labels, or yields an empty grade mapping; otherwise build the row.  The
`fallbackName` parameter abstracts `fallbackNameFromText`, the name-only
guess applied when the structural name is empty. -/
def keptOfBlock (fallbackName : Str → Str) (b : BlockIn) : Option RowL :=
  let raw := normalizeWS b.text
  if raw = [] then none
  else
    match extractCardNumber raw with
    | none => none
    | some num =>
      if distinctGradeCount raw < 3 then none
      else
        let name :=
          if b.sName = [] then
            (if fallbackName raw = [] then b.sName else fallbackName raw)
          else b.sName
        let grades := extractGradesMap raw
        if grades = [] then none
        else
          some { name := name, details := b.sDetails,
                 cardNumber := some num,
                 totalPop := Headless.extractTotal raw,
                 grades := grades, blockLen := raw.length }

/-- Identity key `` `${(b.name || "").toLowerCase()}|${b.cardNumber}` ``
(part_002; `cardNumber` is always a present string there). -/
def rowKey (b : RowL) : Str :=
  lowerStr b.name ++ '|' :: (b.cardNumber.getD [])

/-- part_002's dedup loop: skip a row whose key was already seen. -/
def dedupAux : List RowL → List Str → List RowL
  | [], _ => []
  | b :: bs, seen =>
    if rowKey b ∈ seen then dedupAux bs seen
    else b :: dedupAux bs (rowKey b :: seen)

def dedupRows (l : List RowL) : List RowL := dedupAux l []

/-- The `pokemonName` filter (identical in every variant): keep rows whose
name or details, lowercased, contains the lowercased query. -/
def nameFilter (pokemonName : Option Str) (rows : List RowL) : List RowL :=
  match pokemonName with
  | none => rows
  | some p =>
    if p = [] then rows
    else
      rows.filter (fun r =>
        (!r.name.isEmpty && hasSub (lowerStr p) (lowerStr r.name)) ||
        (!r.details.isEmpty && hasSub (lowerStr p) (lowerStr r.details)))

/-- part_002's `cardNumber` filter: `r.cardNumber === want` with
`want = String(cardNumber).replace(/\s+/g, "")`. -/
def numberFilter (cardNumber : Option Str) (rows : List RowL) : List RowL :=
  match cardNumber with
  | none => rows
  | some c =>
    if c = [] then rows
    else
      rows.filter (fun r =>
        match r.cardNumber with
        | some n => n == stripWS c
        | none => false)

/-- `filtered.sort((a, b) => (b._len || 0) - (a._len || 0))`: descending
block length (insertion sort; the comparator order is all that matters). -/
def insertDesc (x : RowL) : List RowL → List RowL
  | [] => [x]
  | y :: ys => if y.blockLen < x.blockLen then x :: y :: ys else y :: insertDesc x ys

def sortByLenDesc (l : List RowL) : List RowL := l.foldr insertDesc []

/-- part_002's handler from the kept-block loop to the filtered, sorted,
limited row list (still carrying `_len`). -/
def pipelineRows (fallbackName : Str → Str) (blocks : List BlockIn)
    (pokemonName cardNumber : Option Str) (limit : Option Int) : List RowL :=
  let kept := blocks.filterMap (keptOfBlock fallbackName)
  let rows := dedupRows kept
  let f1 := nameFilter pokemonName rows
  let f2 := numberFilter cardNumber f1
  applyLimit limit (sortByLenDesc f2)

/-- The `cards` array of part_002's response:
`out.map(({_len, ...rest}) => rest)`. -/
def pipeline (fallbackName : Str → Str) (blocks : List BlockIn)
    (pokemonName cardNumber : Option Str) (limit : Option Int) : List Row :=
  (pipelineRows fallbackName blocks pokemonName cardNumber limit).map RowL.toRow

end Strict

namespace Broad

/-!  The earlier broad-sweep variant (part_003). -/

/-- part_003's block loop body: pre-check the PSA/number pattern, extract,
then discard only when the grade mapping is empty AND there is no number
chunk. -/
def blockOfCandidate (b : BlockIn) : Option RowL :=
  let text := normalizeWS b.text
  if psaOrNumberTest text then
    let grades := extractGradesMap text
    let numChunk := extractCardNumberChunk text
    if grades = [] ∧ numChunk = none then none
    else
      some { name := b.sName, details := b.sDetails,
             cardNumber := numChunk,
             totalPop := Headless.extractTotal text,
             grades := grades, blockLen := text.length }
  else none

/-- Identity key
`` `${(b.name || "").toLowerCase()}|${b.cardNumber || ""}` `` (part_003). -/
def rowKey (b : RowL) : Str :=
  lowerStr b.name ++ '|' :: (b.cardNumber.getD [])

/-- part_003's dedup loop:
`if (seen.has(key) && key !== "|") continue;` — the all-empty key `"|"` is
never treated as a collision. -/
def dedupAux : List RowL → List Str → List RowL
  | [], _ => []
  | b :: bs, seen =>
    if rowKey b ∈ seen ∧ rowKey b ≠ ['|'] then dedupAux bs seen
    else b :: dedupAux bs (rowKey b :: seen)

def dedupRows (l : List RowL) : List RowL := dedupAux l []

end Broad

namespace ScrapeSet

/-!  The plain-fetch variant (src/api/scrapeSet.js): structural block
selection, filters and limit. -/

/-- A DOM node under consideration, reduced to what the selection logic
reads from it: its full text. -/
structure DomBlock where
  text : Str
deriving DecidableEq

/-- The parsed document, abstracted as the capability the handler uses:
evaluate a structural query, and enumerate all `div` nodes. -/
structure Doc where
  query : String → List DomBlock
  divs : List DomBlock

def CANDIDATE_CARD_SELECTORS : List String :=
  [".card", ".card-box", ".card-item", "article", "li.card", "div[class*='card']"]

/-- Body of the selector loop:
`if (found.length > best.length) { best = found; bestSelector = sel; }`. -/
def selStep (doc : Doc) (acc : List DomBlock × Option String) (sel : String) :
    List DomBlock × Option String :=
  if acc.1.length < (doc.query sel).length then (doc.query sel, some sel) else acc

/-- The selector loop: keep the query result with the most matches,
remembering which selector won. -/
def pickBest (doc : Doc) : List DomBlock × Option String :=
  CANDIDATE_CARD_SELECTORS.foldl (selStep doc) ([], none)

def totalPopulationMarker : Str := "total population".data

/-- The selection stage: the best structural result, or — only when it is
empty — every `div` whose lowercased text contains "total population"
(the heuristic fallback; its selector tag is reported as `none` here). -/
def selectBlocks (doc : Doc) : List DomBlock × Option String :=
  let best := pickBest doc
  if best.1.isEmpty then
    (doc.divs.filter (fun b => hasSub totalPopulationMarker (lowerStr b.text)), none)
  else best

/-- The `pokemonName` filter of scrapeSet.js (on `CardRecord`s). -/
def nameFilter (pokemonName : Option Str) (rows : List Row) : List Row :=
  match pokemonName with
  | none => rows
  | some p =>
    if p = [] then rows
    else
      rows.filter (fun r =>
        (!r.name.isEmpty && hasSub (lowerStr p) (lowerStr r.name)) ||
        (!r.details.isEmpty && hasSub (lowerStr p) (lowerStr r.details)))

/-- The `cardNumber` filter of scrapeSet.js:
`r.cardNumber && r.cardNumber.replace(/\s+/g, "") === want`. -/
def numberFilter (cardNumber : Option Str) (rows : List Row) : List Row :=
  match cardNumber with
  | none => rows
  | some c =>
    if c = [] then rows
    else
      rows.filter (fun r =>
        match r.cardNumber with
        | some n => stripWS n == stripWS c
        | none => false)

end ScrapeSet

/-!  Concrete inputs used by the witnesses. -/

/-- Two rows sharing the identity key but with different details. -/
def dupRowA : RowL :=
  { name := "Pikachu".data, details := "first".data,
    cardNumber := some "4/102".data, totalPop := none, grades := [], blockLen := 5 }

def dupRowB : RowL :=
  { name := "Pikachu".data, details := "second".data,
    cardNumber := some "4/102".data, totalPop := none, grades := [], blockLen := 9 }

/-- The spec's filtering example records. -/
def pikachuRow : Row :=
  { name := "Pikachu".data, details := [],
    cardNumber := some "4/102".data, totalPop := none, grades := [] }

def raichuRow : Row :=
  { name := "Raichu".data, details := [],
    cardNumber := some "5/102".data, totalPop := none, grades := [] }

/-- A candidate block that satisfies the strict broad-sweep gate. -/
def goodBlock : BlockIn :=
  { text := "Pikachu 4/102 PSA 10 5 PSA 9 3 PSA 8 1 Total Population 9".data,
    sName := "Pikachu".data, sDetails := "Holo".data }

/-- The record the strict pipeline produces from `goodBlock`. -/
def goodRow : Row :=
  { name := "Pikachu".data, details := "Holo".data,
    cardNumber := some ("4/102".data), totalPop := some 9,
    grades := [("PSA 10".data, 5), ("PSA 9".data, 3), ("PSA 8".data, 1)] }

/-- A candidate block whose text has a card-number fraction but no PSA
grades at all. -/
def fractionOnlyBlock : BlockIn :=
  { text := "Charizard Holo 4/102".data, sName := [], sDetails := [] }

/-- A document on which only the "article" selector matches. -/
def articleDoc : ScrapeSet.Doc :=
  { query := fun s => if s = "article" then [{ text := "x".data }] else [],
    divs := [] }

/-!  ## Lemmas -/

lemma length_dropWhileSp (p : Char → Bool) :
    ∀ l : Str, (l.dropWhile p).length ≤ l.length := by
  intro l
  induction l with
  | nil => simp
  | cons c cs ih =>
    by_cases h : p c
    · simpa [List.dropWhile, h] using Nat.le_succ_of_le ih
    · simp [List.dropWhile, h]

lemma getKey_setKey (m : List (Str × Nat)) (k : Str) (v : Nat) (k' : Str) :
    getKey (setKey m k v) k' = if k' = k then some v else getKey m k' := by
  induction m with
  | nil =>
    by_cases h : k' = k
    · subst h; simp [setKey, getKey, List.find?]
    · have h2 : ¬ (k = k') := fun hc => h hc.symm
      simp [setKey, getKey, List.find?, h, h2]
  | cons p m ih =>
    by_cases hp : p.1 = k
    · by_cases h : k' = k
      · subst h
        simp [setKey, getKey, List.find?, hp]
      · have h2 : ¬ (k = k') := fun hc => h hc.symm
        have h3 : ¬ (p.1 = k') := hp ▸ h2
        simp [setKey, getKey, List.find?, hp, h, h2, h3]
    · by_cases hpk : p.1 = k'
      · have h : ¬ (k' = k) := fun hc => hp (hpk.trans hc)
        simp [setKey, getKey, List.find?, hp, hpk, h]
      · have hrec := ih
        simp only [getKey, List.find?] at hrec ⊢
        simp [setKey, hp, hpk, hrec]

lemma keys_setKey (m : List (Str × Nat)) (k : Str) (v : Nat) :
    (setKey m k v).map Prod.fst =
      if k ∈ m.map Prod.fst then m.map Prod.fst else m.map Prod.fst ++ [k] := by
  induction m with
  | nil => simp [setKey]
  | cons p m ih =>
    by_cases hp : p.1 = k
    · simp [setKey, hp]
    · have hkp : ¬ (k = p.1) := fun hc => hp hc.symm
      simp only [setKey, if_neg hp, List.map_cons, ih]
      by_cases hk : k ∈ m.map Prod.fst
      · simp [hk, List.mem_cons, hkp]
      · simp [hk, List.mem_cons, hkp]

lemma nodup_keys_setKey (m : List (Str × Nat)) (k : Str) (v : Nat)
    (h : (m.map Prod.fst).Nodup) : ((setKey m k v).map Prod.fst).Nodup := by
  rw [keys_setKey]
  split
  · exact h
  · next hk => simp [List.nodup_append, h, hk]

lemma nodup_keys_foldl_gradeStep (l : List (Str × Option Nat)) :
    ∀ m : List (Str × Nat), (m.map Prod.fst).Nodup →
      ((l.foldl gradeStep m).map Prod.fst).Nodup := by
  induction l with
  | nil => intro m hm; simpa using hm
  | cons e l ih =>
    intro m hm
    rcases he : e.2 with _ | v
    · simpa [gradeStep, he] using ih m hm
    · simpa [gradeStep, he] using ih _ (nodup_keys_setKey m (gradeKey e.1) v hm)

lemma getLast?_cons_ne_none {α : Type} (w : α) (fl : List α) :
    ∃ y, (w :: fl).getLast? = some y := by
  induction fl generalizing w with
  | nil => exact ⟨w, rfl⟩
  | cons a fl ih =>
    obtain ⟨y, hy⟩ := ih a
    exact ⟨y, by rw [List.getLast?_cons_cons, hy]⟩

lemma getKey_foldl_gradeStep (l : List (Str × Option Nat)) :
    ∀ (m : List (Str × Nat)) (k : Str),
      getKey (l.foldl gradeStep m) k =
        match specLastParsedValue l k with
        | some v => some v
        | none => getKey m k := by
  induction l with
  | nil => intro m k; simp [specLastParsedValue]
  | cons e l ih =>
    intro m k
    rcases he : e.2 with _ | v
    · rw [List.foldl_cons]
      simp only [gradeStep, he]
      rw [ih m k]
      simp [specLastParsedValue, List.filterMap_cons, he]
    · rw [List.foldl_cons]
      simp only [gradeStep, he]
      rw [ih _ k]
      by_cases hk : gradeKey e.1 = k
      · have hcons :
            specLastParsedValue (e :: l) k =
              (v :: (l.filterMap
                (fun e =>
                  match e.2 with
                  | some w => if gradeKey e.1 = k then some w else none
                  | none => none))).getLast? := by
          simp [specLastParsedValue, List.filterMap_cons, he, hk]
        rcases hfl : (l.filterMap
            (fun e =>
              match e.2 with
              | some w => if gradeKey e.1 = k then some w else none
              | none => none)) with _ | ⟨w, fl⟩
        · have h1 : specLastParsedValue l k = none := by
            simp [specLastParsedValue, hfl]
          have h2 : specLastParsedValue (e :: l) k = some v := by
            rw [hcons, hfl]; rfl
          rw [h1, h2, getKey_setKey, if_pos hk.symm]
        · have h1 : specLastParsedValue l k = (w :: fl).getLast? := by
            simp [specLastParsedValue, hfl]
          have h2 : specLastParsedValue (e :: l) k = (w :: fl).getLast? := by
            rw [hcons, hfl, List.getLast?_cons_cons]
          obtain ⟨y, hy⟩ := getLast?_cons_ne_none w fl
          rw [h1, h2, hy]
      · have hcons : specLastParsedValue (e :: l) k = specLastParsedValue l k := by
          simp [specLastParsedValue, List.filterMap_cons, he, hk]
        rw [hcons]
        have hset : getKey (setKey m (gradeKey e.1) v) k = getKey m k := by
          rw [getKey_setKey]
          exact if_neg (fun hc => hk hc.symm)
        rcases specLastParsedValue l k with _ | y
        · simpa using hset
        · rfl

lemma foldl_digits (l : Str) :
    ∀ acc : Nat,
      l.foldl (fun n c => 10 * n + (c.toNat - 48)) acc =
        Nat.ofDigits 10 ((l.map (fun c => c.toNat - 48)).reverse) + acc * 10 ^ l.length := by
  induction l with
  | nil => intro acc; simp [Nat.ofDigits]
  | cons c l ih =>
    intro acc
    simp only [List.foldl_cons, List.map_cons, List.reverse_cons, List.length_cons]
    rw [ih, Nat.ofDigits_append]
    simp [Nat.ofDigits_singleton]
    ring

lemma broad_dedupAux_sublist :
    ∀ (l : List RowL) (seen : List Str), List.Sublist (Broad.dedupAux l seen) l := by
  intro l
  induction l with
  | nil => intro seen; simp [Broad.dedupAux]
  | cons b bs ih =>
    intro seen
    by_cases h : Broad.rowKey b ∈ seen ∧ Broad.rowKey b ≠ ['|']
    · simp only [Broad.dedupAux]
      rw [if_pos h]
      exact (ih seen).cons b
    · simp only [Broad.dedupAux]
      rw [if_neg h]
      exact (ih _).cons₂ b

lemma broad_dedupAux_filter_bar :
    ∀ (l : List RowL) (seen : List Str),
      (Broad.dedupAux l seen).filter (fun b => decide (Broad.rowKey b = ['|'])) =
        l.filter (fun b => decide (Broad.rowKey b = ['|'])) := by
  intro l
  induction l with
  | nil => intro seen; rfl
  | cons b bs ih =>
    intro seen
    by_cases hbar : Broad.rowKey b = ['|']
    · have hcond : ¬ (Broad.rowKey b ∈ seen ∧ Broad.rowKey b ≠ ['|']) :=
        fun hc => hc.2 hbar
      simp only [Broad.dedupAux]
      rw [if_neg hcond]
      simp [List.filter_cons, hbar, ih]
    · by_cases hmem : Broad.rowKey b ∈ seen
      · simp only [Broad.dedupAux]
        rw [if_pos ⟨hmem, hbar⟩, ih seen]
        simp [List.filter_cons, hbar]
      · have hcond : ¬ (Broad.rowKey b ∈ seen ∧ Broad.rowKey b ≠ ['|']) :=
          fun hc => hmem hc.1
        simp only [Broad.dedupAux]
        rw [if_neg hcond]
        simp [List.filter_cons, hbar, ih]

lemma broad_dedupAux_filter_ne (k : Str) (hk : k ≠ ['|']) :
    ∀ (l : List RowL) (seen : List Str),
      (Broad.dedupAux l seen).filter (fun b => decide (Broad.rowKey b = k)) =
        if k ∈ seen then []
        else (l.filter (fun b => decide (Broad.rowKey b = k))).take 1 := by
  intro l
  induction l with
  | nil =>
    intro seen
    by_cases h : k ∈ seen <;> simp [Broad.dedupAux, h]
  | cons b bs ih =>
    intro seen
    by_cases hbk : Broad.rowKey b = k
    · have hnb : Broad.rowKey b ≠ ['|'] := hbk ▸ hk
      by_cases hmem : Broad.rowKey b ∈ seen
      · have hks : k ∈ seen := hbk ▸ hmem
        simp only [Broad.dedupAux]
        rw [if_pos ⟨hmem, hnb⟩, ih seen]
        simp [hks]
      · have hks : k ∉ seen := fun hc => hmem (hbk ▸ hc)
        have hcond : ¬ (Broad.rowKey b ∈ seen ∧ Broad.rowKey b ≠ ['|']) :=
          fun hc => hmem hc.1
        have hin : k ∈ Broad.rowKey b :: seen := by
          rw [hbk]; exact List.mem_cons_self _ _
        simp only [Broad.dedupAux]
        rw [if_neg hcond]
        rw [List.filter_cons, List.filter_cons]
        rw [ih (Broad.rowKey b :: seen)]
        simp [hbk, hin, hks]
    · have hkb : ¬ (k = Broad.rowKey b) := fun hc => hbk hc.symm
      by_cases hcond : Broad.rowKey b ∈ seen ∧ Broad.rowKey b ≠ ['|']
      · simp only [Broad.dedupAux]
        rw [if_pos hcond, ih seen]
        simp [List.filter_cons, hbk]
      · have hiff : (k ∈ Broad.rowKey b :: seen) ↔ (k ∈ seen) := by
          simp [List.mem_cons, hkb]
        simp only [Broad.dedupAux]
        rw [if_neg hcond]
        rw [List.filter_cons, List.filter_cons]
        rw [ih (Broad.rowKey b :: seen)]
        simp only [hiff]
        simp [hbk]

lemma broad_rowKey_bar_iff (b : RowL) :
    Broad.rowKey b = ['|'] ↔ b.name = [] ∧ b.cardNumber.getD [] = [] := by
  constructor
  · intro h
    have hlen := congrArg List.length h
    simp [Broad.rowKey, lowerStr] at hlen
    refine ⟨List.length_eq_zero.mp ?_, List.length_eq_zero.mp ?_⟩ <;> omega
  · rintro ⟨h1, h2⟩
    simp [Broad.rowKey, lowerStr, h1, h2]

lemma not_space_of_digit (c : Char) (h : isDigitChar c = true) :
    isSpaceChar c = false := by
  by_contra hs
  have hs' : isSpaceChar c = true := by
    revert hs; cases isSpaceChar c <;> simp
  have hc : ((c = ' ' ∨ c = '\t') ∨ c = '\n') ∨ c = '\r' := by
    simpa [isSpaceChar, Bool.or_eq_true, beq_iff_eq] using hs'
  rcases hc with ((rfl | rfl) | rfl) | rfl <;> exact absurd h (by decide)

lemma all_takeSpaces (l : Str) : (takeSpaces l).all isSpaceChar = true := by
  rw [List.all_eq_true]
  intro c hc
  exact List.mem_takeWhile_imp hc

lemma tryLen_some_shape (n : Nat) (s m : Str)
    (h : tryLen n s = some m) :
    ∃ a sp1 sp2 b,
      m = a ++ sp1 ++ '/' :: (sp2 ++ b)
      ∧ a.length = n ∧ a.all isDigitChar = true
      ∧ sp1.all isSpaceChar = true ∧ sp2.all isSpaceChar = true
      ∧ b ≠ [] ∧ b.length ≤ 4 ∧ b.all isDigitChar = true := by
  simp only [tryLen] at h
  split at h
  · next hcond =>
    split at h
    · next r2 heq =>
      split at h
      · exact absurd h (by simp)
      · next hb =>
        have hm := (Option.some.inj h).symm
        refine ⟨s.take n, takeSpaces (s.drop n), takeSpaces r2,
          ((r2.drop (takeSpaces r2).length).takeWhile isDigitChar).take 4,
          hm, hcond.1, hcond.2, all_takeSpaces _, all_takeSpaces _, hb, ?_, ?_⟩
        · rw [List.length_take]; exact min_le_left _ _
        · rw [List.all_eq_true]
          intro c hc
          exact List.mem_takeWhile_imp (List.mem_of_mem_take hc)
    · exact absurd h (by simp)
  · exact absurd h (by simp)

/-- Common shape of any anchored fraction match: digits (1–4), spaces,
slash, spaces, digits (1–4). -/
def FracShape (m : Str) : Prop :=
  ∃ a sp1 sp2 b,
    m = a ++ sp1 ++ '/' :: (sp2 ++ b)
    ∧ a ≠ [] ∧ a.length ≤ 4 ∧ a.all isDigitChar = true
    ∧ sp1.all isSpaceChar = true ∧ sp2.all isSpaceChar = true
    ∧ b ≠ [] ∧ b.length ≤ 4 ∧ b.all isDigitChar = true

lemma fracMatchAt_some_shape (s m : Str) (h : fracMatchAt s = some m) :
    FracShape m := by
  have build : ∀ n, 1 ≤ n → n ≤ 4 → tryLen n s = some m → FracShape m := by
    intro n h1 h4 ht
    obtain ⟨a, sp1, sp2, b, hm, hlen, ha, hsp1, hsp2, hb, hb4, hbd⟩ :=
      tryLen_some_shape n s m ht
    exact ⟨a, sp1, sp2, b, hm, by rw [← List.length_pos]; omega, by omega,
      ha, hsp1, hsp2, hb, hb4, hbd⟩
  rw [fracMatchAt] at h
  split at h
  · next h4 => exact build 4 (by norm_num) (by norm_num) (h4.trans h)
  · split at h
    · next h3 => exact build 3 (by norm_num) (by norm_num) (h3.trans h)
    · split at h
      · next h2 => exact build 2 (by norm_num) (by norm_num) (h2.trans h)
      · exact build 1 (by norm_num) (by norm_num) h

lemma firstFractionMatch_some_shape (s m : Str)
    (h : firstFractionMatch s = some m) : FracShape m := by
  induction s with
  | nil => exact absurd h (by simp [firstFractionMatch])
  | cons c cs ih =>
    rw [firstFractionMatch] at h
    split at h
    · next hat => exact fracMatchAt_some_shape _ _ (hat.trans h)
    · exact ih h

lemma filter_no_space_of_digit (a : Str) (ha : a.all isDigitChar = true) :
    a.filter (fun c => !isSpaceChar c) = a := by
  apply List.filter_eq_self.mpr
  intro c hc
  have hd := List.all_eq_true.mp ha c hc
  simp [not_space_of_digit c hd]

lemma filter_space_nil (sp : Str) (hs : sp.all isSpaceChar = true) :
    sp.filter (fun c => !isSpaceChar c) = [] := by
  apply List.filter_eq_nil_iff.mpr
  intro c hc
  have := List.all_eq_true.mp hs c hc
  simp [this]

lemma stripWS_fracShape (a sp1 sp2 b : Str)
    (ha : a.all isDigitChar = true) (hs1 : sp1.all isSpaceChar = true)
    (hs2 : sp2.all isSpaceChar = true) (hb : b.all isDigitChar = true) :
    stripWS (a ++ sp1 ++ '/' :: (sp2 ++ b)) = a ++ '/' :: b := by
  simp only [stripWS, List.filter_append, List.filter_cons]
  rw [filter_no_space_of_digit a ha, filter_space_nil sp1 hs1,
    filter_space_nil sp2 hs2, filter_no_space_of_digit b hb]
  simp [show isSpaceChar '/' = false from by decide]

lemma takeWhile_all_eq {p : Char → Bool} (l : Str) (h : l.all p = true) :
    l.takeWhile p = l := by
  induction l with
  | nil => rfl
  | cons c cs ih =>
    rw [List.all_cons, Bool.and_eq_true] at h
    rw [List.takeWhile_cons, if_pos h.1, ih h.2]

lemma tryLen_self (a b : Str) (_ha1 : a ≠ []) (had : a.all isDigitChar = true)
    (hb1 : b ≠ []) (hb4 : b.length ≤ 4) (hbd : b.all isDigitChar = true) :
    tryLen a.length (a ++ '/' :: b) = some (a ++ '/' :: b) := by
  have htake : (a ++ '/' :: b).take a.length = a := List.take_left a ('/' :: b)
  have hdrop : (a ++ '/' :: b).drop a.length = '/' :: b := List.drop_left a ('/' :: b)
  have hsp1 : takeSpaces ('/' :: b) = [] := by
    simp [takeSpaces, List.takeWhile_cons, show isSpaceChar '/' = false from by decide]
  have hspb : takeSpaces b = [] := by
    rcases b with _ | ⟨c, cs⟩
    · rfl
    · have hc : isDigitChar c = true := by
        rw [List.all_cons, Bool.and_eq_true] at hbd; exact hbd.1
      simp [takeSpaces, List.takeWhile_cons, not_space_of_digit c hc]
  have htw : b.takeWhile isDigitChar = b := takeWhile_all_eq b hbd
  simp [tryLen, htake, hdrop, hsp1, hspb, htw, had, hb1, List.take_of_length_le hb4]

lemma tryLen_none_of_lt (a b : Str) (n : Nat) (hlt : a.length < n) :
    tryLen n (a ++ '/' :: b) = none := by
  have hfail : ¬ (((a ++ '/' :: b).take n).length = n
      ∧ ((a ++ '/' :: b).take n).all isDigitChar = true) := by
    rintro ⟨hlen, hall⟩
    have hsplit : (a ++ '/' :: b).take n = a ++ ('/' :: b).take (n - a.length) := by
      rw [List.take_append_eq_append_take, List.take_of_length_le (by omega)]
    have hmem : '/' ∈ (a ++ '/' :: b).take n := by
      rcases hn : n - a.length with _ | k
      · omega
      · rw [hsplit, hn]
        simp
    have := List.all_eq_true.mp hall '/' hmem
    exact absurd this (by decide)
  simp only [tryLen]
  rw [if_neg hfail]

lemma fracMatchAt_self (a b : Str) (ha1 : a ≠ []) (ha4 : a.length ≤ 4)
    (had : a.all isDigitChar = true)
    (hb1 : b ≠ []) (hb4 : b.length ≤ 4) (hbd : b.all isDigitChar = true) :
    fracMatchAt (a ++ '/' :: b) = some (a ++ '/' :: b) := by
  have hpos : 1 ≤ a.length := List.length_pos.mpr ha1
  have hself := tryLen_self a b ha1 had hb1 hb4 hbd
  have hcase : a.length = 1 ∨ a.length = 2 ∨ a.length = 3 ∨ a.length = 4 := by omega
  rcases hcase with h | h | h | h
  · rw [h] at hself
    simp [fracMatchAt, tryLen_none_of_lt a b 4 (by omega),
      tryLen_none_of_lt a b 3 (by omega), tryLen_none_of_lt a b 2 (by omega), hself]
  · rw [h] at hself
    simp [fracMatchAt, tryLen_none_of_lt a b 4 (by omega),
      tryLen_none_of_lt a b 3 (by omega), hself]
  · rw [h] at hself
    simp [fracMatchAt, tryLen_none_of_lt a b 4 (by omega), hself]
  · rw [h] at hself
    simp [fracMatchAt, hself]

lemma firstFractionMatch_self (a b : Str) (ha1 : a ≠ []) (ha4 : a.length ≤ 4)
    (had : a.all isDigitChar = true)
    (hb1 : b ≠ []) (hb4 : b.length ≤ 4) (hbd : b.all isDigitChar = true) :
    firstFractionMatch (a ++ '/' :: b) = some (a ++ '/' :: b) := by
  have hfrac := fracMatchAt_self a b ha1 ha4 had hb1 hb4 hbd
  rcases a with _ | ⟨c, a2⟩
  · exact absurd rfl ha1
  · rw [List.cons_append] at hfrac ⊢
    rw [firstFractionMatch, hfrac]

lemma extract_self (a b : Str) (ha1 : a ≠ []) (ha4 : a.length ≤ 4)
    (had : a.all isDigitChar = true)
    (hb1 : b ≠ []) (hb4 : b.length ≤ 4) (hbd : b.all isDigitChar = true) :
    extractCardNumberChunk (a ++ '/' :: b) = some (a ++ '/' :: b) := by
  have hstrip : stripWS (a ++ '/' :: b) = a ++ '/' :: b := by
    have h := stripWS_fracShape a [] [] b had rfl rfl hbd
    simpa using h
  rw [extractCardNumberChunk, firstFractionMatch_self a b ha1 ha4 had hb1 hb4 hbd]
  simp [hstrip]

lemma extractCardNumberChunk_shape (s r : Str)
    (h : extractCardNumberChunk s = some r) :
    ∃ a b, r = a ++ '/' :: b
      ∧ a ≠ [] ∧ b ≠ [] ∧ a.length ≤ 4 ∧ b.length ≤ 4
      ∧ a.all isDigitChar = true ∧ b.all isDigitChar = true := by
  rw [extractCardNumberChunk] at h
  rcases hm : firstFractionMatch s with _ | m
  · rw [hm] at h; exact absurd h (by simp)
  · rw [hm] at h
    have hr : r = stripWS m := (Option.some.inj h).symm
    obtain ⟨a, sp1, sp2, b, hshape, ha1, ha4, had, hs1, hs2, hb1, hb4, hbd⟩ :=
      firstFractionMatch_some_shape s m hm
    have hstrip : stripWS m = a ++ '/' :: b := by
      rw [hshape]; exact stripWS_fracShape a sp1 sp2 b had hs1 hs2 hbd
    exact ⟨a, b, by rw [hr, hstrip], ha1, hb1, ha4, hb4, had, hbd⟩

/-!  ## Claim theorems -/

lemma matchCI_some_startsWith (pat : Str) :
    ∀ (s r : Str), matchCI pat s = some r →
      startsWithStr (lowerStr pat) (lowerStr s) = true := by
  induction pat with
  | nil => intro s r _; rfl
  | cons p ps ih =>
    intro s r h
    rcases s with _ | ⟨c, cs⟩
    · exact absurd h (by simp [matchCI])
    · rw [matchCI] at h
      split at h
      · next hc =>
        have hc' : c.toLower = p.toLower := by simpa [beq_iff_eq] using hc
        simp only [lowerStr, List.map_cons, startsWithStr, hc']
        simp only [beq_self_eq_true, Bool.true_and]
        exact ih cs r h
      · exact absurd h (by simp)

lemma hasSub_of_startsWith (pat s : Str) (h : startsWithStr pat s = true) :
    hasSub pat s = true := by
  rcases s with _ | ⟨c, cs⟩
  · simpa [hasSub] using h
  · simp [hasSub, h]

lemma hasSub_cons_of_tail (pat : Str) (c : Char) (cs : Str)
    (h : hasSub pat cs = true) : hasSub pat (c :: cs) = true := by
  simp [hasSub, h]

lemma hasSub_lower_dropWhile (pat : Str) (q : Char → Bool) :
    ∀ l : Str, hasSub pat (lowerStr (l.dropWhile q)) = true →
      hasSub pat (lowerStr l) = true := by
  intro l
  induction l with
  | nil => intro h; exact h
  | cons c cs ih =>
    intro h
    by_cases hq : q c
    · rw [List.dropWhile_cons, if_pos hq] at h
      exact hasSub_cons_of_tail pat c.toLower (lowerStr cs) (ih h)
    · rw [List.dropWhile_cons, if_neg hq] at h
      exact h

lemma hasSub_lower_of_matchCI (pat : Str) (q : Str) :
    ∀ (s r : Str), matchCI pat s = some r →
      hasSub q (lowerStr r) = true → hasSub q (lowerStr s) = true := by
  induction pat with
  | nil =>
    intro s r h hq
    have : r = s := by simpa [matchCI] using h.symm
    exact this ▸ hq
  | cons p ps ih =>
    intro s r h hq
    rcases s with _ | ⟨c, cs⟩
    · exact absurd h (by simp [matchCI])
    · rw [matchCI] at h
      split at h
      · exact hasSub_cons_of_tail q c.toLower (lowerStr cs) (ih cs r h hq)
      · exact absurd h (by simp)

lemma popMatchAt_hasSub (s v : Str) (h : popMatchAt s = some v) :
    hasSub ("population".data) (lowerStr s) = true := by
  rw [popMatchAt] at h
  rcases hm : matchCI ("Population".data) s with _ | rest
  · rw [hm] at h; exact absurd h (by simp)
  · have hsw := matchCI_some_startsWith ("Population".data) s rest hm
    have : lowerStr ("Population".data) = "population".data := by decide
    rw [this] at hsw
    exact hasSub_of_startsWith _ _ hsw

lemma totalPopMatchAt_hasSub (s v : Str) (h : totalPopMatchAt s = some v) :
    hasSub ("population".data) (lowerStr s) = true := by
  rw [totalPopMatchAt] at h
  rcases hm : matchCI ("Total".data) s with _ | rest
  · rw [hm] at h; exact absurd h (by simp)
  · rw [hm] at h
    have h1 := popMatchAt_hasSub _ _ h
    have h2 := hasSub_lower_dropWhile ("population".data) isSpaceChar rest h1
    exact hasSub_lower_of_matchCI ("Total".data) ("population".data) s rest hm h2

lemma headless_aux_hasSub :
    ∀ (s v : Str), Headless.extractTotalAux s = some v →
      hasSub ("population".data) (lowerStr s) = true := by
  intro s
  induction s with
  | nil => intro v h; exact absurd h (by simp [Headless.extractTotalAux])
  | cons c cs ih =>
    intro v h
    rw [Headless.extractTotalAux] at h
    split at h
    · next hm => exact totalPopMatchAt_hasSub _ _ (hm.trans h)
    · split at h
      · next hm => exact popMatchAt_hasSub _ _ (hm.trans h)
      · exact hasSub_cons_of_tail _ c.toLower (lowerStr cs) (ih v h)

lemma scrapeset_aux_hasSub :
    ∀ (s v : Str), ScrapeSet.extractTotalAux s = some v →
      hasSub ("population".data) (lowerStr s) = true := by
  intro s
  induction s with
  | nil => intro v h; exact absurd h (by simp [ScrapeSet.extractTotalAux])
  | cons c cs ih =>
    intro v h
    rw [ScrapeSet.extractTotalAux] at h
    split at h
    · next hm => exact totalPopMatchAt_hasSub _ _ (hm.trans h)
    · exact hasSub_cons_of_tail _ c.toLower (lowerStr cs) (ih v h)

lemma selStep_foldl (doc : ScrapeSet.Doc) :
    ∀ (sels : List String) (acc : List ScrapeSet.DomBlock × Option String),
      acc.1.length ≤ (sels.foldl (ScrapeSet.selStep doc) acc).1.length
    ∧ (∀ sel ∈ sels,
        (doc.query sel).length ≤ (sels.foldl (ScrapeSet.selStep doc) acc).1.length)
    ∧ ((sels.foldl (ScrapeSet.selStep doc) acc).1 = acc.1
        ∨ ∃ sel ∈ sels, (sels.foldl (ScrapeSet.selStep doc) acc).1 = doc.query sel) := by
  intro sels
  induction sels with
  | nil => intro acc; exact ⟨le_refl _, by simp, Or.inl rfl⟩
  | cons sel sels ih =>
    intro acc
    rw [List.foldl_cons]
    obtain ⟨ih1, ih2, ih3⟩ := ih (ScrapeSet.selStep doc acc sel)
    have hstep1 : acc.1.length ≤ (ScrapeSet.selStep doc acc sel).1.length := by
      rw [ScrapeSet.selStep]; split
      · next hlt => exact le_of_lt hlt
      · exact le_refl _
    have hstep2 : (doc.query sel).length ≤ (ScrapeSet.selStep doc acc sel).1.length := by
      rw [ScrapeSet.selStep]; split
      · exact le_refl _
      · next hlt => exact Nat.le_of_not_lt hlt
    have hstep3 : (ScrapeSet.selStep doc acc sel).1 = acc.1
        ∨ (ScrapeSet.selStep doc acc sel).1 = doc.query sel := by
      rw [ScrapeSet.selStep]; split
      · exact Or.inr rfl
      · exact Or.inl rfl
    refine ⟨le_trans hstep1 ih1, ?_, ?_⟩
    · intro s hs
      rcases List.mem_cons.mp hs with rfl | hs2
      · exact le_trans hstep2 ih1
      · exact ih2 s hs2
    · rcases ih3 with heq | ⟨s, hs, heq⟩
      · rw [heq]
        rcases hstep3 with h | h
        · exact Or.inl h
        · exact Or.inr ⟨sel, List.mem_cons_self _ _, h⟩
      · exact Or.inr ⟨s, List.mem_cons_of_mem _ hs, heq⟩

lemma lowerStr_ne_nil (p : Str) (hp : p ≠ []) : lowerStr p ≠ [] := by
  rcases p with _ | ⟨c, cs⟩
  · exact absurd rfl hp
  · simp [lowerStr]

lemma hasSub_nil_of_ne (q : Str) (hq : q ≠ []) : hasSub q [] = false := by
  rcases q with _ | ⟨c, cs⟩
  · exact absurd rfl hq
  · rfl

lemma guard_hasSub (q x : Str) (hq : q ≠ []) :
    (!x.isEmpty && hasSub q (lowerStr x)) = hasSub q (lowerStr x) := by
  rcases x with _ | ⟨c, cs⟩
  · simp [lowerStr, hasSub_nil_of_ne q hq]
  · simp [List.isEmpty]

/-- C4 counterexample: the plain-fetch variant's total-population
extractor (src/api/scrapeSet.js) requires the "Total" qualifier: on a text
containing "Population 123" with no preceding "Total" it returns null,
not 123 as the claim states. -/
theorem total_extractor_counterexample :
    ScrapeSet.extractTotal ("Population 123".data) = none
  ∧ some (123 : Nat) ≠ none := ⟨by decide, by decide⟩

/-- C4 (amended): the headless variants' total-population extractor
(part_002/part_003) matches an optional "Total" qualifier, so
"Population 123" yields 123 there; the plain-fetch variant requires the
"Total" qualifier and yields null on "Population 123"; on
"Total Population 18,361" both yield 18361 with separators stripped; and
both return null whenever the text does not even contain "population"
case-insensitively. -/
theorem total_extractor_variants :
    Headless.extractTotal ("Population 123".data) = some 123
  ∧ Headless.extractTotal ("Total Population 18,361".data) = some 18361
  ∧ ScrapeSet.extractTotal ("Population 123".data) = none
  ∧ ScrapeSet.extractTotal ("Total Population 18,361".data) = some 18361
  ∧ (∀ s : Str, hasSub ("population".data) (lowerStr s) = false →
      Headless.extractTotal s = none ∧ ScrapeSet.extractTotal s = none) := by
  refine ⟨by decide, by decide, by decide, by decide, ?_⟩
  intro s hs
  constructor
  · rw [Headless.extractTotal]
    rcases h : Headless.extractTotalAux s with _ | v
    · rfl
    · have hsub := headless_aux_hasSub s v h
      rw [hs] at hsub
      exact absurd hsub (by decide)
  · rw [ScrapeSet.extractTotal]
    rcases h : ScrapeSet.extractTotalAux s with _ | v
    · rfl
    · have hsub := scrapeset_aux_hasSub s v h
      rw [hs] at hsub
      exact absurd hsub (by decide)

/-- C4 witness: the no-phrase implication applied to a concrete text with
no "population" occurrence. -/
theorem total_extractor_variants_witness :
    Headless.extractTotal ("no totals here".data) = none
  ∧ ScrapeSet.extractTotal ("no totals here".data) = none :=
  total_extractor_variants.2.2.2.2 ("no totals here".data) (by decide)

/-- C5: the structural block selector's winner has at least as many
matches as every candidate query; whenever some query matches anything the
selection is one of the query results, of maximal match count; and only
when every query yields zero matches does the selector fall back to the
divs whose lowercased text contains the total-population marker. -/
theorem block_selector_max_count :
    ∀ doc : ScrapeSet.Doc,
      (∀ sel ∈ ScrapeSet.CANDIDATE_CARD_SELECTORS,
        (doc.query sel).length ≤ (ScrapeSet.pickBest doc).1.length)
    ∧ ((∃ sel ∈ ScrapeSet.CANDIDATE_CARD_SELECTORS, doc.query sel ≠ []) →
        ∃ sel ∈ ScrapeSet.CANDIDATE_CARD_SELECTORS,
          (ScrapeSet.selectBlocks doc).1 = doc.query sel
          ∧ ∀ s2 ∈ ScrapeSet.CANDIDATE_CARD_SELECTORS,
              (doc.query s2).length ≤ (doc.query sel).length)
    ∧ ((∀ sel ∈ ScrapeSet.CANDIDATE_CARD_SELECTORS, doc.query sel = []) →
        (ScrapeSet.selectBlocks doc).1 =
          doc.divs.filter
            (fun b => hasSub ScrapeSet.totalPopulationMarker (lowerStr b.text))) := by
  intro doc
  obtain ⟨h1, h2, h3⟩ :=
    selStep_foldl doc ScrapeSet.CANDIDATE_CARD_SELECTORS ([], none)
  have h2p : ∀ sel ∈ ScrapeSet.CANDIDATE_CARD_SELECTORS,
      (doc.query sel).length ≤ (ScrapeSet.pickBest doc).1.length := h2
  have h3p : (ScrapeSet.pickBest doc).1 = []
      ∨ ∃ sel ∈ ScrapeSet.CANDIDATE_CARD_SELECTORS,
          (ScrapeSet.pickBest doc).1 = doc.query sel := by
    rcases h3 with heq | ⟨sel, hs, heq⟩
    · exact Or.inl heq
    · exact Or.inr ⟨sel, hs, heq⟩
  refine ⟨h2p, ?_, ?_⟩
  · rintro ⟨sel0, hsel0, hne⟩
    have hlen0 : 0 < (ScrapeSet.pickBest doc).1.length :=
      lt_of_lt_of_le (List.length_pos.mpr hne) (h2p sel0 hsel0)
    have hne2 : ¬ (ScrapeSet.pickBest doc).1.isEmpty = true := by
      rcases hbest : (ScrapeSet.pickBest doc).1 with _ | ⟨x, xs⟩
      · rw [hbest] at hlen0; simp at hlen0
      · simp [List.isEmpty]
    have hsel : (ScrapeSet.selectBlocks doc).1 = (ScrapeSet.pickBest doc).1 := by
      simp only [ScrapeSet.selectBlocks]
      rw [if_neg hne2]
    rcases h3p with heq | ⟨sel, hsel2, heq⟩
    · rw [heq] at hlen0; simp at hlen0
    · refine ⟨sel, hsel2, by rw [hsel]; exact heq, ?_⟩
      intro s2 hs2
      have hle := h2p s2 hs2
      rw [heq] at hle
      exact hle
  · intro hall
    have hbest : (ScrapeSet.pickBest doc).1 = [] := by
      rcases h3p with heq | ⟨sel, hsel2, heq⟩
      · exact heq
      · rw [heq]; exact hall sel hsel2
    simp only [ScrapeSet.selectBlocks]
    rw [if_pos (by rw [hbest]; rfl)]

/-- C5 witness: on a document where only the "article" query matches, the
selector returns that query's result set. -/
theorem block_selector_max_count_witness :
    ∃ sel ∈ ScrapeSet.CANDIDATE_CARD_SELECTORS,
      (ScrapeSet.selectBlocks articleDoc).1 = articleDoc.query sel
      ∧ ∀ s2 ∈ ScrapeSet.CANDIDATE_CARD_SELECTORS,
          (articleDoc.query s2).length ≤ (articleDoc.query sel).length :=
  (block_selector_max_count articleDoc).2.1
    ⟨"article", by decide, by simp [articleDoc]⟩

/-- C9: with a non-empty query the name filter keeps exactly the records
whose name or details contains the query case-insensitively, the number
filter keeps exactly the records whose whitespace-stripped card number
equals the whitespace-stripped query (records with a null card number are
never kept), applying both composes by logical AND, and an absent filter
keeps everything. -/
theorem filters_compose_and :
    ∀ (rows : List Row) (p c : Str), p ≠ [] → c ≠ [] →
      ScrapeSet.nameFilter (some p) rows =
        rows.filter (fun r =>
          hasSub (lowerStr p) (lowerStr r.name)
          || hasSub (lowerStr p) (lowerStr r.details))
    ∧ ScrapeSet.numberFilter (some c) rows =
        rows.filter (fun r =>
          match r.cardNumber with
          | some n => stripWS n == stripWS c
          | none => false)
    ∧ ScrapeSet.numberFilter (some c) (ScrapeSet.nameFilter (some p) rows) =
        rows.filter (fun r =>
          (hasSub (lowerStr p) (lowerStr r.name)
            || hasSub (lowerStr p) (lowerStr r.details))
          && (match r.cardNumber with
              | some n => stripWS n == stripWS c
              | none => false))
    ∧ ScrapeSet.nameFilter none rows = rows
    ∧ ScrapeSet.numberFilter none rows = rows := by
  intro rows p c hp hc
  have hq : lowerStr p ≠ [] := lowerStr_ne_nil p hp
  have hname : ∀ rs : List Row,
      ScrapeSet.nameFilter (some p) rs =
        rs.filter (fun r =>
          hasSub (lowerStr p) (lowerStr r.name)
          || hasSub (lowerStr p) (lowerStr r.details)) := by
    intro rs
    rw [ScrapeSet.nameFilter]
    rw [if_neg hp]
    apply List.filter_congr
    intro r _
    rw [guard_hasSub _ _ hq, guard_hasSub _ _ hq]
  have hnum : ∀ rs : List Row,
      ScrapeSet.numberFilter (some c) rs =
        rs.filter (fun r =>
          match r.cardNumber with
          | some n => stripWS n == stripWS c
          | none => false) := by
    intro rs
    rw [ScrapeSet.numberFilter]
    rw [if_neg hc]
  refine ⟨hname rows, hnum rows, ?_, rfl, rfl⟩
  rw [hname rows, hnum _, List.filter_filter]
  apply List.filter_congr
  intro r _
  exact Bool.and_comm _ _

/-- C9 witness: the spec's example.  Filtering `[Pikachu 4/102,
Raichu 5/102]` by name "pika" keeps only Pikachu, by number "5/102" keeps
only Raichu, and composing the unmatched pair yields the empty list. -/
theorem filters_compose_and_witness :
    ScrapeSet.nameFilter (some ("pika".data)) [pikachuRow, raichuRow] = [pikachuRow]
  ∧ ScrapeSet.numberFilter (some ("5/102".data)) [pikachuRow, raichuRow] = [raichuRow]
  ∧ ScrapeSet.numberFilter (some ("5/102".data))
      (ScrapeSet.nameFilter (some ("pika".data)) [pikachuRow, raichuRow]) = [] := by
  obtain ⟨h1, h2, h3, -, -⟩ :=
    filters_compose_and [pikachuRow, raichuRow] ("pika".data) ("5/102".data)
      (by decide) (by decide)
  refine ⟨?_, ?_, ?_⟩
  · rw [h1]; decide
  · rw [h2]; decide
  · rw [h3]; decide


lemma insertDesc_mem (x y : RowL) :
    ∀ l : List RowL, y ∈ Strict.insertDesc x l ↔ y = x ∨ y ∈ l := by
  intro l
  induction l with
  | nil => simp [Strict.insertDesc]
  | cons z zs ih =>
    rw [Strict.insertDesc]
    split
    · simp [List.mem_cons]
    · rw [List.mem_cons, ih]
      simp [List.mem_cons]
      tauto

lemma sortByLenDesc_mem (y : RowL) :
    ∀ l : List RowL, y ∈ Strict.sortByLenDesc l ↔ y ∈ l := by
  intro l
  induction l with
  | nil => simp [Strict.sortByLenDesc]
  | cons z zs ih =>
    have hz : Strict.sortByLenDesc (z :: zs) =
        Strict.insertDesc z (Strict.sortByLenDesc zs) := rfl
    rw [hz, insertDesc_mem, ih, List.mem_cons]

lemma strict_dedupAux_sublist :
    ∀ (l : List RowL) (seen : List Str),
      List.Sublist (Strict.dedupAux l seen) l := by
  intro l
  induction l with
  | nil => intro seen; simp [Strict.dedupAux]
  | cons b bs ih =>
    intro seen
    by_cases h : Strict.rowKey b ∈ seen
    · simp only [Strict.dedupAux]
      rw [if_pos h]
      exact (ih seen).cons b
    · simp only [Strict.dedupAux]
      rw [if_neg h]
      exact (ih _).cons₂ b

lemma strict_nameFilter_mem (pn : Option Str) (rows : List RowL) (r : RowL)
    (h : r ∈ Strict.nameFilter pn rows) : r ∈ rows := by
  rcases pn with _ | p
  · exact h
  · rw [Strict.nameFilter] at h
    split at h
    · exact h
    · exact List.mem_of_mem_filter h

lemma strict_numberFilter_mem (cn : Option Str) (rows : List RowL) (r : RowL)
    (h : r ∈ Strict.numberFilter cn rows) : r ∈ rows := by
  rcases cn with _ | c
  · exact h
  · rw [Strict.numberFilter] at h
    split at h
    · exact h
    · exact List.mem_of_mem_filter h

lemma applyLimit_mem {α : Type} (lim : Option Int) (l : List α) (r : α)
    (h : r ∈ applyLimit lim l) : r ∈ l := by
  rcases lim with _ | v
  · exact h
  · exact List.take_subset _ _ h

lemma keptOfBlock_inv (f : Str → Str) (b : BlockIn) (r : RowL)
    (h : Strict.keptOfBlock f b = some r) :
    (∃ num, r.cardNumber = some num
      ∧ ∃ a b2, num = a ++ '/' :: b2 ∧ a ≠ [] ∧ b2 ≠ []
        ∧ a.length ≤ 4 ∧ b2.length ≤ 4
        ∧ a.all isDigitChar = true ∧ b2.all isDigitChar = true)
    ∧ r.grades ≠ [] := by
  simp only [Strict.keptOfBlock] at h
  split at h
  · exact absurd h (by simp)
  · next hraw =>
    split at h
    · exact absurd h (by simp)
    · next num hnum =>
      split at h
      · exact absurd h (by simp)
      · next hcnt =>
        split at h
        · exact absurd h (by simp)
        · next hg =>
          have hv := Option.some.inj h
          subst hv
          refine ⟨⟨num, rfl, ?_⟩, hg⟩
          exact extractCardNumberChunk_shape _ num hnum

/-- C1 counterexample: part_003's record assembler runs under broad-sweep
selection yet ACCEPTS a block whose text contains a card-number fraction
with zero distinct PSA grade labels and an empty extracted grade mapping —
the claim says every such block is discarded under broad sweep. -/
theorem broad_sweep_acceptance_counterexample :
    (Broad.blockOfCandidate fractionOnlyBlock).isSome = true
  ∧ extractCardNumberChunk (normalizeWS fractionOnlyBlock.text) ≠ none
  ∧ distinctGradeCount (normalizeWS fractionOnlyBlock.text) = 0
  ∧ extractGradesMap (normalizeWS fractionOnlyBlock.text) = [] := by
  refine ⟨by decide, by decide, by decide, by decide⟩

/-- C1 (amended): the tight-heuristics broad-sweep variant (part_002)
accepts a candidate block exactly when the normalised block text contains
a card-number fraction AND at least 3 distinct PSA grade labels AND the
grade-mapping extraction is non-empty (so each of the claim's three
discard scenarios holds there); the earlier broad-sweep variant (part_003)
instead accepts exactly the blocks whose text matches a PSA-grade or
fraction pattern and yields a non-empty grade mapping OR a card-number
chunk. -/
theorem broad_sweep_acceptance_amended :
    ∀ (fallbackName : Str → Str) (b : BlockIn),
      ((Strict.keptOfBlock fallbackName b).isSome = true ↔
        (extractCardNumber (normalizeWS b.text) ≠ none
          ∧ 3 ≤ distinctGradeCount (normalizeWS b.text)
          ∧ extractGradesMap (normalizeWS b.text) ≠ []))
    ∧ ((Broad.blockOfCandidate b).isSome = true ↔
        (psaOrNumberTest (normalizeWS b.text) = true
          ∧ (extractGradesMap (normalizeWS b.text) ≠ []
              ∨ extractCardNumberChunk (normalizeWS b.text) ≠ none))) := by
  intro f b
  constructor
  · simp only [Strict.keptOfBlock]
    split
    · next hraw =>
      rw [hraw]
      simp [extractCardNumber, extractCardNumberChunk, firstFractionMatch]
    · next hraw =>
      split
      · next hnum => simp [hnum]
      · next num hnum =>
        split
        · next hcnt =>
          simp only [Option.isSome_none]
          constructor
          · intro hfalse; cases hfalse
          · rintro ⟨-, hge, -⟩; omega
        · next hcnt =>
          split
          · next hg =>
            simp only [Option.isSome_none]
            constructor
            · intro hfalse; cases hfalse
            · rintro ⟨-, -, hne⟩; exact absurd hg hne
          · next hg =>
            simp only [Option.isSome_some, true_iff]
            exact ⟨by simp [hnum], by omega, hg⟩
  · simp only [Broad.blockOfCandidate]
    split
    · next htest =>
      split
      · next hgn =>
        simp only [Option.isSome_none]
        constructor
        · intro hfalse; cases hfalse
        · rintro ⟨-, hor⟩
          rcases hor with hne | hne
          · exact (hne hgn.1).elim
          · exact (hne hgn.2).elim
      · next hgn =>
        simp only [Option.isSome_some, true_iff]
        refine ⟨htest, ?_⟩
        rcases not_and_or.mp hgn with h1 | h2
        · exact Or.inl h1
        · exact Or.inr h2
    · next htest =>
      simp only [Option.isSome_none]
      constructor
      · intro hfalse; cases hfalse
      · rintro ⟨ht, -⟩; exact (htest ht).elim

/-- C7: every non-null result of the card-number extractor is a
fraction-shaped token (1–4 digits, slash, 1–4 digits) with all whitespace
stripped, and extraction is idempotent on such an output: extracting from
the extractor's own non-null output returns that same string. -/
theorem card_number_extractor_idempotent :
    ∀ (s r : Str), extractCardNumberChunk s = some r →
      (∃ a b, r = a ++ '/' :: b
        ∧ a ≠ [] ∧ b ≠ [] ∧ a.length ≤ 4 ∧ b.length ≤ 4
        ∧ a.all isDigitChar = true ∧ b.all isDigitChar = true)
    ∧ extractCardNumberChunk r = some r := by
  intro s r h
  obtain ⟨a, b, hr, ha1, hb1, ha4, hb4, had, hbd⟩ :=
    extractCardNumberChunk_shape s r h
  refine ⟨⟨a, b, hr, ha1, hb1, ha4, hb4, had, hbd⟩, ?_⟩
  rw [hr]
  exact extract_self a b ha1 ha4 had hb1 hb4 hbd

/-- C7 witness: the spec's examples.  `"215 / 203 extra text"` extracts to
`"215/203"`, which is fraction-shaped, and re-extracting from it returns
it unchanged. -/
theorem card_number_extractor_idempotent_witness :
    extractCardNumberChunk ("215 / 203 extra text".data) = some ("215/203".data)
  ∧ extractCardNumberChunk ("215/203".data) = some ("215/203".data) := by
  have h1 : extractCardNumberChunk ("215 / 203 extra text".data) =
      some ("215/203".data) := by decide
  exact ⟨h1, (card_number_extractor_idempotent _ _ h1).2⟩

/-- C2 counterexample: in `"PSA 9 5 PSA 9 7"` the grade `9` occurs twice
with parseable values 5 then 7; the extractor's mapping retains 7, the
value of the LAST occurrence, not the first occurrence's 5 as the claim
states. -/
theorem grade_map_first_occurrence_counterexample :
    getKey (extractGradesMap ("PSA 9 5 PSA 9 7".data)) ("PSA 9".data) = some 7
  ∧ findGrades ("PSA 9 5 PSA 9 7".data) = [(['9'], some 5), (['9'], some 7)]
  ∧ (7 : Nat) ≠ 5 := by
  refine ⟨by decide, by decide, by decide⟩

/-- C2 (amended): the mapping-only grade extractor has exactly one entry
per distinct grade key (its key list is duplicate-free), and the value
retained for a key is the value of the last occurrence of that grade whose
value parses numerically; a grade none of whose occurrences parses gets no
entry (`specLastParsedValue` returns `none` for it). -/
theorem grade_map_retains_last_parsed :
    ∀ (text : Str) (k : Str),
      getKey (extractGradesMap text) k = specLastParsedValue (findGrades text) k
    ∧ ((extractGradesMap text).map Prod.fst).Nodup := by
  intro text k
  constructor
  · have h := getKey_foldl_gradeStep (findGrades text) [] k
    rw [extractGradesMap, h]
    rcases specLastParsedValue (findGrades text) k with _ | y
    · simp [getKey]
    · rfl
  · exact nodup_keys_foldl_gradeStep (findGrades text) [] (by simp)

/-- C3: part_003's deduplication keeps a subsequence of the input rows (so
selection order is preserved); for every identity key other than the
all-empty `"|"` it keeps exactly the first row carrying that key; rows
whose key is `"|"` are all kept; and the key is `"|"` exactly when both
the name and the card number are empty. -/
theorem dedup_first_per_key_keeps_all_empty :
    ∀ (l : List RowL),
      List.Sublist (Broad.dedupRows l) l
    ∧ (∀ k : Str, k ≠ ['|'] →
        (Broad.dedupRows l).filter (fun b => decide (Broad.rowKey b = k)) =
          (l.filter (fun b => decide (Broad.rowKey b = k))).take 1)
    ∧ (Broad.dedupRows l).filter (fun b => decide (Broad.rowKey b = ['|'])) =
        l.filter (fun b => decide (Broad.rowKey b = ['|']))
    ∧ (∀ b : RowL, Broad.rowKey b = ['|'] ↔
        b.name = [] ∧ b.cardNumber.getD [] = []) := by
  intro l
  refine ⟨broad_dedupAux_sublist l [], ?_, broad_dedupAux_filter_bar l [], broad_rowKey_bar_iff⟩
  intro k hk
  have h := broad_dedupAux_filter_ne k hk l []
  simpa [Broad.dedupRows] using h

/-- C3 witness: two rows with the same identity key and different details;
deduplication keeps exactly the first. -/
theorem dedup_first_per_key_keeps_all_empty_witness :
    (Broad.dedupRows [dupRowA, dupRowB]).filter
        (fun b => decide (Broad.rowKey b = Broad.rowKey dupRowA)) =
      ([dupRowA, dupRowB].filter
        (fun b => decide (Broad.rowKey b = Broad.rowKey dupRowA))).take 1 :=
  (dedup_first_per_key_keeps_all_empty [dupRowA, dupRowB]).2.1
    (Broad.rowKey dupRowA) (by decide)

/-- C6: the numeric normalizer parses `"13,782"` to 13782 and `""` to
null; it returns null exactly when the input has no digit characters; and
whenever a digit is present the result is the base-10 value of the digit
subsequence with every non-digit (thousands separators included) removed.
Being a total function, it never throws. -/
theorem numeric_normalizer_spec :
    cleanNum ("13,782".data) = some 13782
  ∧ cleanNum ("".data) = none
  ∧ (∀ s : Str, cleanNum s = none ↔ ∀ c ∈ s, isDigitChar c = false)
  ∧ (∀ s : Str, s.filter isDigitChar ≠ [] →
      cleanNum s =
        some (Nat.ofDigits 10
          (((s.filter isDigitChar).map (fun c => c.toNat - 48)).reverse))) := by
  refine ⟨by decide, by decide, ?_, ?_⟩
  · intro s
    constructor
    · intro hnone c hc
      by_contra hd
      have hdT : isDigitChar c = true := by
        revert hd; cases isDigitChar c <;> simp
      have hne : s ≠ [] := by rintro rfl; cases hc
      have hf : s.filter isDigitChar ≠ [] := by
        intro hfe
        exact List.filter_eq_nil_iff.mp hfe c hc hdT
      simp [cleanNum, hne, hf] at hnone
    · intro hall
      have hf : s.filter isDigitChar = [] :=
        List.filter_eq_nil_iff.mpr (fun c hc => by simp [hall c hc])
      by_cases hne : s = []
      · simp [hne, cleanNum]
      · simp [cleanNum, hne, hf]
  · intro s hs
    have hne : s ≠ [] := by
      intro h; subst h; simp at hs
    simp only [cleanNum, if_neg hne]
    rw [if_neg hs]
    have := foldl_digits (s.filter isDigitChar) 0
    simp [digitsVal, this]

/-- C6 witness: the general digit-value equation applied at `"13,782"`. -/
theorem numeric_normalizer_spec_witness :
    ("13,782".data).filter isDigitChar ≠ []
  ∧ cleanNum ("13,782".data) =
      some (Nat.ofDigits 10
        (((("13,782".data).filter isDigitChar).map (fun c => c.toNat - 48)).reverse)) :=
  ⟨by decide, numeric_normalizer_spec.2.2.2 ("13,782".data) (by decide)⟩

/-- C8: with no limit the whole list is returned; with a limit the value
is clamped into [1, 200] and the list is truncated to that length, the
output being an initial segment of the input (order preserved); limit 0
behaves as limit 1 and limit 500 behaves as limit 200. -/
theorem limit_clamp_spec :
    ∀ (l : List Row) (v : Int),
      applyLimit none l = l
    ∧ applyLimit (some v) l = l.take (clampLimit v).toNat
    ∧ 1 ≤ clampLimit v ∧ clampLimit v ≤ 200
    ∧ applyLimit (some v) l ++ l.drop (clampLimit v).toNat = l
    ∧ applyLimit (some 0) l = applyLimit (some 1) l
    ∧ applyLimit (some 500) l = applyLimit (some 200) l := by
  intro l v
  refine ⟨rfl, rfl, le_max_left _ _, ?_, ?_, ?_, ?_⟩
  · exact max_le (by norm_num) (min_le_left _ _)
  · exact List.take_append_drop _ l
  · have h : clampLimit 0 = clampLimit 1 := by decide
    simp [applyLimit, h]
  · have h : clampLimit 500 = clampLimit 200 := by decide
    simp [applyLimit, h]

/-- C10: every record in the strict (tight-heuristics broad-sweep)
pipeline's returned cards list has a non-null cardNumber of
digits-slash-digits shape and a non-empty grades mapping, and the returned
list is exactly the internal row list with the block-length ranking metric
stripped by the final projection, so each output record carries exactly
the five CardRecord fields. -/
theorem strict_output_invariants :
    ∀ (fallbackName : Str → Str) (blocks : List BlockIn)
      (pn cn : Option Str) (lim : Option Int),
      Strict.pipeline fallbackName blocks pn cn lim =
        (Strict.pipelineRows fallbackName blocks pn cn lim).map RowL.toRow
    ∧ ∀ r ∈ Strict.pipeline fallbackName blocks pn cn lim,
        (∃ num, r.cardNumber = some num
          ∧ ∃ a b, num = a ++ '/' :: b ∧ a ≠ [] ∧ b ≠ []
            ∧ a.length ≤ 4 ∧ b.length ≤ 4
            ∧ a.all isDigitChar = true ∧ b.all isDigitChar = true)
        ∧ r.grades ≠ [] := by
  intro f blocks pn cn lim
  refine ⟨rfl, ?_⟩
  intro r hr
  rw [Strict.pipeline] at hr
  obtain ⟨rl, hrl, hr2⟩ := List.mem_map.mp hr
  simp only [Strict.pipelineRows] at hrl
  have h1 := applyLimit_mem lim _ rl hrl
  have h2 := (sortByLenDesc_mem rl _).mp h1
  have h3 := strict_numberFilter_mem cn _ rl h2
  have h4 := strict_nameFilter_mem pn _ rl h3
  have h5 : rl ∈ blocks.filterMap (Strict.keptOfBlock f) :=
    (strict_dedupAux_sublist _ []).subset h4
  obtain ⟨b, hb, hbk⟩ := List.mem_filterMap.mp h5
  have hinv := keptOfBlock_inv f b rl hbk
  rw [← hr2]
  exact hinv

/-- C10 witness: a concrete strict-pipeline run returning one record; the
invariants hold of it. -/
theorem strict_output_invariants_witness :
    (∃ num, goodRow.cardNumber = some num
      ∧ ∃ a b, num = a ++ '/' :: b ∧ a ≠ [] ∧ b ≠ []
        ∧ a.length ≤ 4 ∧ b.length ≤ 4
        ∧ a.all isDigitChar = true ∧ b.all isDigitChar = true)
    ∧ goodRow.grades ≠ [] :=
  (strict_output_invariants (fun _ => []) [goodBlock] none none none).2
    goodRow (by decide)

end Pokesweep
